import Mathlib

/-!
Verification of the parcel fast-source-map core (`parcel_sourcemap/src/lib.rs`)
against its natural-language specification.

The Rust code is shallowly embedded: `u32` values become `Nat` with explicit
wrapping (`% 2^32`) where the source performs wrapping arithmetic (release-mode
two's-complement semantics), `i64` values become `Int` with explicit range
checks where the source checks overflow, `BTreeMap` becomes a key-sorted
association list, `HashMap` becomes an association list, and fallible
operations return `Except` or pair the new state with an optional error.

The repository modules `mapping.rs`, `mapping_line.rs`, `sourcemap_error.rs`,
`vlq_utils.rs` and the external `vlq` crate are not part of the provided
source tree; those definitions are modelled from the specification (sections
3.1, 4.1, 4.2 and 7) and are marked as such in their doc comments.  Everything
else is translated directly from `lib.rs`.
-/

/-! ## Machine-integer helpers -/

/-- Largest `u32` value. -/
def u32MaxN : Nat := 4294967295

/-- Largest `i64` value. -/
def i64MaxI : Int := 9223372036854775807

/-- Smallest `i64` value. -/
def i64MinI : Int := -9223372036854775808

/-- Wrapping `u32` addition (release-mode semantics of `a + b` on `u32`). -/
def u32add (a b : Nat) : Nat := (a + b) % 4294967296

/-- Wrapping `u32` subtraction (release-mode semantics of `a - b` on `u32`). -/
def u32wsub (a b : Nat) : Nat := (a + (4294967296 - b % 4294967296)) % 4294967296

/-- The `as u32` cast of an `i64` value: truncation mod `2^32`. -/
def i64AsU32 (n : Int) : Nat := (n.emod 4294967296).toNat

/-! ## Error type

Modelled from the spec: `sourcemap_error.rs` is not in the provided source
tree; section 7 of the spec lists the flat error taxonomy, carried together
with an optional human-readable message. -/

/-- Modelled from the spec: the error kinds of section 7 (`sourcemap_error.rs`
is missing from the source tree). -/
inductive SourceMapErrorType : Type
  | vlqInvalid
  | vlqOverflow
  | vlqUnexpectedEof
  | unexpectedNegativeNumber
  | sourceOutOfRange
  | nameOutOfRange
  | ioError
  deriving DecidableEq, Repr

/-- Modelled from the spec: an error kind plus an optional message
(`SourceMapError::new(ty, reason)` in the source). -/
structure SourceMapError : Type where
  error_type : SourceMapErrorType
  reason : Option String
  deriving DecidableEq, Repr

/-! ## Data model

`OriginalLocation`, `Mapping` and `MappingLine` live in `mapping.rs` /
`mapping_line.rs`, which are not in the provided source tree; they are
modelled from spec sections 3.1 and 4.2.  The constructor argument order of
`OriginalLocation::new(original_line, original_column, source, name)` and
`Mapping::new(generated_line, generated_column, original)` is visible at the
call sites in `lib.rs`. -/

/-- Modelled from the spec (section 3.1): a 4-tuple `{source, original_line,
original_column, name?}` of table indices (`mapping.rs` is missing). -/
structure OriginalLocation : Type where
  source : Nat
  original_line : Nat
  original_column : Nat
  name : Option Nat
  deriving DecidableEq, Repr

/-- Modelled from the spec (section 3.1): a generated position with an
optional original location (`mapping.rs` is missing). -/
structure Mapping : Type where
  generated_line : Nat
  generated_column : Nat
  original : Option OriginalLocation
  deriving DecidableEq, Repr

/-- Modelled from the spec (section 4.2): a `MappingLine` owns its generated
line number and an ordered column-to-original map (`mapping_line.rs` is
missing).  The `BTreeMap` is embedded as a key-sorted association list. -/
structure MappingLine : Type where
  line : Nat
  mappings : List (Nat × Option OriginalLocation)
  deriving DecidableEq, Repr

/-- `MappingLine::new(line)`: an empty line. -/
def MappingLine.new (line : Nat) : MappingLine := ⟨line, []⟩

/-- The root `SourceMap` state (`lib.rs`): `sources` and `names` are vectors,
`sources_content` a `HashMap` (embedded as an association list), and
`mapping_lines` a `BTreeMap` (embedded as a key-sorted association list). -/
structure SourceMap : Type where
  sources : List String
  sources_content : List (Nat × String)
  names : List String
  mapping_lines : List (Nat × MappingLine)
  deriving DecidableEq, Repr

/-- `SourceMap::new()`. -/
def SourceMap.new : SourceMap := ⟨[], [], [], []⟩

/-! ## Ordered-map primitives (the `BTreeMap` embedding) -/

/-- `BTreeMap::insert` on a key-sorted association list: insert before the
first strictly larger key, overwriting an equal key in place. -/
def btInsert {α : Type} : List (Nat × α) → Nat → α → List (Nat × α)
  | [], k, v => [(k, v)]
  | p :: rest, k, v =>
    if k < p.1 then (k, v) :: p :: rest
    else if k = p.1 then (k, v) :: rest
    else p :: btInsert rest k v

/-- `BTreeMap::get`: the value stored at key `k`, if any. -/
def btLookup {α : Type} (l : List (Nat × α)) (k : Nat) : Option α :=
  (l.find? (fun p => p.1 == k)).map Prod.snd

/-- `map.range(..k).next_back()`: the entry with the greatest key strictly
below `k`, if any (on a key-sorted list, the last entry passing the filter). -/
def rangeBefore {α : Type} (l : List (Nat × α)) (k : Nat) : Option (Nat × α) :=
  (l.filter (fun p => decide (p.1 < k))).getLast?

/-- `Iterator::position`: index of the first element satisfying `p`. -/
def listPosition {α : Type} (p : α → Bool) : List α → Option Nat
  | [] => none
  | a :: l => if p a then some 0 else (listPosition p l).map (fun i => i + 1)

/-! ## String-table operations (`lib.rs`) -/

/-- `SourceMap::add_source`: linear search, append on miss; returns the index
and the updated map. -/
def SourceMap.add_source (m : SourceMap) (source : String) : Nat × SourceMap :=
  match listPosition (fun s => source == s) m.sources with
  | some i => (i, m)
  | none => (m.sources.length, { m with sources := m.sources ++ [source] })

/-- `SourceMap::add_sources`: vectorized `add_source`, order preserved. -/
def SourceMap.add_sources (m : SourceMap) (sources : List String) :
    List Nat × SourceMap :=
  sources.foldl
    (fun acc s =>
      let r := SourceMap.add_source acc.2 s
      (acc.1 ++ [r.1], r.2))
    ([], m)

/-- `SourceMap::add_name`: linear search, append on miss. -/
def SourceMap.add_name (m : SourceMap) (name : String) : Nat × SourceMap :=
  match listPosition (fun s => name == s) m.names with
  | some i => (i, m)
  | none => (m.names.length, { m with names := m.names ++ [name] })

/-- `SourceMap::add_names`: vectorized `add_name`, order preserved. -/
def SourceMap.add_names (m : SourceMap) (names : List String) :
    List Nat × SourceMap :=
  names.foldl
    (fun acc n =>
      let r := SourceMap.add_name acc.2 n
      (acc.1 ++ [r.1], r.2))
    ([], m)

/-- `SourceMap::set_source_content`: the source's bounds check is
`source_index > (self.sources.len() as u32 - 1)`, with wrapping `u32`
subtraction; `HashMap::insert` overwrites. -/
def SourceMap.set_source_content (m : SourceMap) (source_index : Nat)
    (source_content : String) : Except SourceMapError SourceMap :=
  if source_index > u32wsub (m.sources.length % 4294967296) 1 then
    .error ⟨.sourceOutOfRange, none⟩
  else
    .ok { m with
          sources_content := btInsert m.sources_content source_index source_content }

/-! ## Mapping operations (`lib.rs`) -/

/-- `SourceMap::add_mapping`: locate-or-create the `MappingLine` for the
generated line, then insert (column, original), overwriting an equal column. -/
def SourceMap.add_mapping (m : SourceMap) (mapping : Mapping) : SourceMap :=
  let line :=
    match btLookup m.mapping_lines mapping.generated_line with
    | some l => l
    | none => MappingLine.new mapping.generated_line
  { m with
    mapping_lines :=
      btInsert m.mapping_lines mapping.generated_line
        { line with
          mappings := btInsert line.mappings mapping.generated_column mapping.original } }

/-- `SourceMap::find_closest_mapping`: on the requested line only, the entry
with the greatest column strictly below the requested column. -/
def SourceMap.find_closest_mapping (m : SourceMap) (generated_line generated_column : Nat) :
    Option Mapping :=
  match btLookup m.mapping_lines generated_line with
  | some line =>
    match rangeBefore line.mappings generated_column with
    | some co => some ⟨generated_line, co.1, co.2⟩
    | none => none
  | none => none

/-- `SourceMap::offset_lines`: checked `i64` addition of `generated_line` and
the offset (error if the true sum leaves the `i64` range or exceeds
`u32::MAX`), detach the suffix keyed at `generated_line` and above, drop the
retained entries keyed at or above `start_line as u32`, then reinsert the
detached lines at their keys shifted by `|offset|` with wrapping `u32`
arithmetic. -/
def SourceMap.offset_lines (m : SourceMap) (generated_line : Nat)
    (generated_line_offset : Int) : Except SourceMapError SourceMap :=
  let start_line : Int := (generated_line : Int) + generated_line_offset
  if start_line > i64MaxI ∨ start_line < i64MinI ∨ start_line > (u32MaxN : Int) then
    .error ⟨.unexpectedNegativeNumber, some "column + column_offset cannot be negative"⟩
  else
    let part_to_remap := m.mapping_lines.filter (fun p => decide (generated_line ≤ p.1))
    let remaining := m.mapping_lines.filter (fun p => decide (p.1 < generated_line))
    let u_start_line : Nat := i64AsU32 start_line
    let remaining := remaining.filter (fun p => decide (p.1 < u_start_line))
    let abs_offset : Nat := generated_line_offset.natAbs % 4294967296
    let shifted := part_to_remap.map (fun p =>
      (if generated_line_offset < 0 then u32wsub p.1 abs_offset
       else u32add p.1 abs_offset, p.2))
    .ok { m with
          mapping_lines := shifted.foldl (fun acc p => btInsert acc p.1 p.2) remaining }

/-! ## VLQ primitive

Modelled from the spec (section 4.1): the external `vlq` crate and the
repository's `vlq_utils.rs` are not in the provided source tree.  A signed
integer is sign-interleaved into an unsigned magnitude, split into 5-bit
groups little-end first, every group but the last carrying the continuation
bit, each 6-bit group rendered through the fixed base64 alphabet. -/

/-- The fixed base64 alphabet of Source Map V3. -/
def base64Chars : List Char :=
  "ABCDEFGHIJKLMNOPQRSTUVWXYZabcdefghijklmnopqrstuvwxyz0123456789+/".data

/-- Render one 6-bit group. -/
def base64Char (n : Nat) : Char := base64Chars.getD n 'A'

/-- The 5-bit groups of a magnitude, little-end first, continuation bit set on
every group but the last.  The fuel argument starts at the magnitude itself
and bounds the recursion depth; it never runs out (each step divides the value
by 32 while consuming one unit of fuel, so fuel stays at or above the value,
and at fuel 0 the value is 0, for which `[v]` is the correct answer). -/
def vlqGroupsAux : Nat → Nat → List Nat
  | 0, v => [v]
  | fuel + 1, v => if v < 32 then [v] else (v % 32 + 32) :: vlqGroupsAux fuel (v / 32)

/-- The 6-bit payload groups of a magnitude. -/
def vlqGroups (v : Nat) : List Nat := vlqGroupsAux v v

/-- Modelled from the spec (section 4.1): `vlq::encode(n, out)`.  Sign-bit
interleaving `u = (n < 0) ? ((-n) << 1) | 1 : (n << 1)`, then base64 VLQ
groups. -/
def vlqEncode (n : Int) : String :=
  let u : Nat := if n < 0 then 2 * n.natAbs + 1 else 2 * n.natAbs
  String.mk ((vlqGroups u).map base64Char)

/-- Largest `i64` magnitude accepted by the decoder. -/
def i64MaxMag : Nat := 9223372036854775807

/-- Modelled from the spec (section 4.1): `vlq::decode`, consuming groups from
the character stream until one without the continuation bit; fails with
`VlqInvalid` on a non-base64 byte, `VlqUnexpectedEof` if the stream ends while
a group is still continuing, and `VlqOverflow` if the magnitude exceeds the
representable range. -/
def vlqDecodeAux : List Char → Nat → Nat → Except SourceMapError (Int × List Char)
  | [], _, _ => .error ⟨.vlqUnexpectedEof, none⟩
  | c :: rest, shift, accum =>
    match listPosition (fun ch => ch == c) base64Chars with
    | none => .error ⟨.vlqInvalid, none⟩
    | some digit =>
      let accum := accum + digit % 32 * 2 ^ shift
      if digit < 32 then
        let magnitude := accum / 2
        if magnitude > i64MaxMag then .error ⟨.vlqOverflow, none⟩
        else .ok (if accum % 2 = 1 then -(magnitude : Int) else (magnitude : Int), rest)
      else vlqDecodeAux rest (shift + 5) accum

/-- One VLQ number from the front of the stream. -/
def vlqDecode (input : List Char) : Except SourceMapError (Int × List Char) :=
  vlqDecodeAux input 0 0

/-- Modelled from the spec (section 4.1): `read_relative_vlq` of
`vlq_utils.rs` decodes one signed delta and adds it to the running counter;
a counter that would go negative is an `UnexpectedNegativeNumber` error. -/
def read_relative_vlq (previous : Nat) (input : List Char) :
    Except SourceMapError (Nat × List Char) :=
  match vlqDecode input with
  | .error e => .error e
  | .ok (delta, rest) =>
    let newValue : Int := (previous : Int) + delta
    if newValue < 0 then .error ⟨.unexpectedNegativeNumber, none⟩
    else .ok (newValue.toNat, rest)

/-- Modelled from the spec (section 4.1): `is_mapping_separator` of
`vlq_utils.rs` — a byte is a separator iff it is `','` or `';'`. -/
def is_mapping_separator (b : Char) : Bool := b == ',' || b == ';'

/-- `input.peek().cloned().map_or(true, is_mapping_separator)`: an exhausted
stream counts as a separator. -/
def peekIsSep : List Char → Bool
  | [] => true
  | c :: _ => is_mapping_separator c

/-! ## Serialization (`SourceMap::write_vlq`, `lib.rs`)

The method takes `&mut self` but only ever reads `self`; the embedding makes
the state passing explicit and returns the map alongside the produced bytes.
Every field delta is computed by `u32` subtraction and then cast to `i64`, so
the embedding uses wrapping `u32` subtraction (`u32wsub`, release-mode
semantics) followed by the non-negative embedding into `Int`. -/

/-- `SourceMap::write_vlq`: walk `mapping_lines` in ascending order, emit one
`';'` per line step, `','` between segments of a line, and per segment the
column delta plus, when an original location is present, the source /
original line / original column (and optionally name) deltas. -/
def SourceMap.write_vlq (m : SourceMap) : SourceMap × String :=
  let res := m.mapping_lines.foldl
    (fun (st : Nat × Nat × Nat × Nat × Nat × String) p =>
      let (lastLine, pSrc, pOL, pOC, pName, out) := st
      let genLine := p.1
      let out :=
        if genLine > 0 then
          out ++ String.mk (List.replicate (u32wsub genLine lastLine) ';')
        else out
      let inner := p.2.mappings.foldl
        (fun (st2 : Nat × Bool × Nat × Nat × Nat × Nat × String) q =>
          let (pGC, first, pSrc, pOL, pOC, pName, out) := st2
          let out := if first then out else out ++ ","
          let out := out ++ vlqEncode ((u32wsub q.1 pGC : Nat) : Int)
          match q.2 with
          | none => (q.1, false, pSrc, pOL, pOC, pName, out)
          | some orig =>
            let out := out ++ vlqEncode ((u32wsub orig.source pSrc : Nat) : Int)
            let out := out ++ vlqEncode ((u32wsub orig.original_line pOL : Nat) : Int)
            let out := out ++ vlqEncode ((u32wsub orig.original_column pOC : Nat) : Int)
            match orig.name with
            | none =>
              (q.1, false, orig.source, orig.original_line, orig.original_column, pName, out)
            | some nm =>
              (q.1, false, orig.source, orig.original_line, orig.original_column, nm,
               out ++ vlqEncode ((u32wsub nm pName : Nat) : Int)))
        (0, true, pSrc, pOL, pOC, pName, out)
      let (_, _, pSrc, pOL, pOC, pName, out) := inner
      (genLine, pSrc, pOL, pOC, pName, out))
    (0, 0, 0, 0, 0, "")
  (m, res.2.2.2.2.2)

/-! ## Deserialization (`SourceMap::add_vql_mappings`, `lib.rs`)

The parse loop mutates the map as it goes; a mid-parse failure returns the
error together with whatever state the loop has already produced.  The fuel
argument starts above the input length and bounds the recursion depth; every
step consumes at least one input character, so the exhaustion branch is never
reached. -/

/-- The parse loop of `SourceMap::add_vql_mappings`. -/
def addVlqLoop : Nat → List Nat → List Nat → Nat → Nat → Nat → Nat → Nat → Nat →
    SourceMap → List Char → SourceMap × Option SourceMapError
  | 0, _, _, _, _, _, _, _, _, m, _ => (m, some ⟨.vlqUnexpectedEof, none⟩)
  | fuel + 1, si, ni, gl, gc, src, ol, oc, nm, m, input =>
    match input with
    | [] => (m, none)
    | b :: rest =>
      if b = ';' then addVlqLoop fuel si ni (gl + 1) 0 src ol oc nm m rest
      else if b = ',' then addVlqLoop fuel si ni gl gc src ol oc nm m rest
      else
        match read_relative_vlq gc (b :: rest) with
        | .error e => (m, some e)
        | .ok (gc', rest1) =>
          if peekIsSep rest1 then
            addVlqLoop fuel si ni gl gc' src ol oc nm
              (m.add_mapping ⟨gl, gc', none⟩) rest1
          else
            match read_relative_vlq src rest1 with
            | .error e => (m, some e)
            | .ok (src', rest2) =>
              match read_relative_vlq ol rest2 with
              | .error e => (m, some e)
              | .ok (ol', rest3) =>
                match read_relative_vlq oc rest3 with
                | .error e => (m, some e)
                | .ok (oc', rest4) =>
                  match si.get? src' with
                  | none => (m, some ⟨.sourceOutOfRange, none⟩)
                  | some mappedSrc =>
                    if peekIsSep rest4 then
                      addVlqLoop fuel si ni gl gc' src' ol' oc' nm
                        (m.add_mapping ⟨gl, gc', some ⟨mappedSrc, ol', oc', none⟩⟩) rest4
                    else
                      match read_relative_vlq nm rest4 with
                      | .error e => (m, some e)
                      | .ok (nm', rest5) =>
                        match ni.get? nm' with
                        | none => (m, some ⟨.nameOutOfRange, none⟩)
                        | some mappedNm =>
                          addVlqLoop fuel si ni gl gc' src' ol' oc' nm'
                            (m.add_mapping
                              ⟨gl, gc', some ⟨mappedSrc, ol', oc', some mappedNm⟩⟩) rest5

/-- `SourceMap::add_vql_mappings`: merge the provided `sources` and `names`
into the map's tables first (producing the wire-index translation vectors),
then run the parse loop. -/
def SourceMap.add_vql_mappings (m : SourceMap) (input : List Char)
    (sources names : List String) : SourceMap × Option SourceMapError :=
  let rs := m.add_sources sources
  let rn := rs.2.add_names names
  addVlqLoop (input.length + 1) rs.1 rn.1 0 0 0 0 0 0 rn.2 input

/-! ## Denoted mapping relation and concrete example maps -/

/-- The mapping relation denoted by the two-level index: the map stores
original location `o` for generated position `(line, col)`. -/
def SourceMap.hasMapping (m : SourceMap) (line col : Nat)
    (o : Option OriginalLocation) : Prop :=
  ∃ ml, (line, ml) ∈ m.mapping_lines ∧ (col, o) ∈ ml.mappings

/-- A one-entry mapping line at column `k`, used to tell lines apart. -/
def mline (k : Nat) : MappingLine := ⟨k, [(k, none)]⟩

/-- A map whose mapping-line keys are exactly 0, 1, 2 and 5 (spec scenario S5). -/
def exMap0125 : SourceMap :=
  ⟨[], [], [], [(0, mline 0), (1, mline 1), (2, mline 2), (5, mline 5)]⟩

/-- A map with the single mapping-line key 5. -/
def exMap5 : SourceMap := ⟨[], [], [], [(5, mline 5)]⟩

/-- The map of spec scenario S1: sources `a.js`, `b.js`, name `test`, and the
three canonical mappings. -/
def s1map : SourceMap :=
  (((SourceMap.new.add_sources ["a.js", "b.js"]).2.add_names ["test"]).2.add_mapping
      ⟨12, 7, some ⟨0, 0, 5, some 0⟩⟩ |>.add_mapping ⟨25, 12, none⟩ |>.add_mapping
    ⟨15, 9, some ⟨1, 0, 5, some 0⟩⟩)

/-! ## Helper lemmas about the list embeddings -/

/-- Appending a matching element to a position-free list puts the first match
at the old length. -/
theorem listPosition_append_none {α : Type} {p : α → Bool} {l : List α} {x : α}
    (h : listPosition p l = none) (hx : p x = true) :
    listPosition p (l ++ [x]) = some l.length := by
  induction l with
  | nil => simp [listPosition, hx]
  | cons a t ih =>
    rw [List.cons_append]
    unfold listPosition at h ⊢
    cases hpa : p a with
    | true => simp [hpa] at h
    | false =>
      simp only [hpa, Bool.false_eq_true, if_false, Option.map_eq_none'] at h
      simp only [Bool.false_eq_true, if_false, ih h, Option.map_some']
      simp

/-- Filtering twice with the same predicate is filtering once. -/
theorem filter_self_filter {α : Type} (p : α → Bool) (l : List α) :
    (l.filter p).filter p = l.filter p := by
  induction l with
  | nil => rfl
  | cons a t ih =>
    rw [List.filter_cons]
    cases h : p a with
    | true =>
      rw [if_pos rfl, List.filter_cons, if_pos h, ih]
    | false =>
      rw [if_neg (by simp), ih]

/-- Inserting a key above every key of the list appends at the end. -/
theorem btInsert_all_lt {α : Type} {acc : List (Nat × α)} {k : Nat} {v : α}
    (h : ∀ p ∈ acc, p.1 < k) : btInsert acc k v = acc ++ [(k, v)] := by
  induction acc with
  | nil => rfl
  | cons a t ih =>
    have ha := h a (List.mem_cons_self a t)
    simp only [btInsert, if_neg (by omega : ¬ k < a.1), if_neg (by omega : ¬ k = a.1)]
    rw [ih (fun p hp => h p (List.mem_cons_of_mem a hp))]
    simp

/-- Folding `btInsert` over a suffix that extends a sorted prefix appends it. -/
theorem foldl_btInsert_append {α : Type} (rest : List (Nat × α)) (acc : List (Nat × α))
    (hs : (acc ++ rest).Pairwise (fun a b => a.1 < b.1)) :
    rest.foldl (fun a p => btInsert a p.1 p.2) acc = acc ++ rest := by
  induction rest generalizing acc with
  | nil => simp
  | cons q t ih =>
    have hlt : ∀ p ∈ acc, p.1 < q.1 := by
      intro p hp
      exact (List.pairwise_append.mp hs).2.2 p hp q (by simp)
    rw [List.foldl_cons]
    have hq : btInsert acc q.1 q.2 = acc ++ [q] := by
      rw [btInsert_all_lt hlt]
    rw [hq]
    have hassoc : (acc ++ [q]) ++ t = acc ++ q :: t := by simp
    rw [ih (acc ++ [q]) (by rw [hassoc]; exact hs), hassoc]

/-- A sorted list splits into its strictly-below-`k` and at-least-`k` parts. -/
theorem filter_split_sorted {α : Type} {l : List (Nat × α)} (k : Nat)
    (hs : l.Pairwise (fun a b => a.1 < b.1)) :
    l.filter (fun p => decide (p.1 < k)) ++ l.filter (fun p => decide (k ≤ p.1)) = l := by
  induction l with
  | nil => rfl
  | cons a t ih =>
    rw [List.pairwise_cons] at hs
    rw [List.filter_cons, List.filter_cons]
    by_cases hk : a.1 < k
    · rw [if_pos (by simpa using hk),
        if_neg (by simp only [decide_eq_true_eq]; omega),
        List.cons_append, ih hs.2]
    · have h1 : t.filter (fun p => decide (p.1 < k)) = [] :=
        List.filter_eq_nil_iff.mpr (fun x hx => by
          have := hs.1 x hx
          simp only [decide_eq_true_eq]
          omega)
      have h2 : t.filter (fun p => decide (k ≤ p.1)) = t :=
        List.filter_eq_self.mpr (fun x hx => by
          have := hs.1 x hx
          simp only [decide_eq_true_eq]
          omega)
      rw [if_neg (by simp only [decide_eq_true_eq]; omega),
        if_pos (by simp only [decide_eq_true_eq]; omega),
        h1, h2, List.nil_append]

/-- A map that fixes every element of a list is the identity on it. -/
theorem map_id_of_mem {α : Type} {l : List α} {f : α → α} (h : ∀ a ∈ l, f a = a) :
    l.map f = l := by
  induction l with
  | nil => rfl
  | cons a t ih =>
    simp only [List.map_cons, h a (List.mem_cons_self a t)]
    rw [ih (fun x hx => h x (List.mem_cons_of_mem a hx))]

/-- A successful `btLookup` exhibits a stored entry. -/
theorem btLookup_eq_some {α : Type} {l : List (Nat × α)} {k : Nat} {v : α}
    (h : btLookup l k = some v) : (k, v) ∈ l := by
  unfold btLookup at h
  cases hf : l.find? (fun p => p.1 == k) with
  | none => rw [hf] at h; exact absurd h (by simp)
  | some q =>
    rw [hf, Option.map_some'] at h
    have hq1 : q.1 = k := by simpa using List.find?_some hf
    have hq2 : q.2 = v := Option.some.inj h
    have hmem := List.mem_of_find?_eq_some hf
    rw [← hq1, ← hq2]
    simpa using hmem

/-- A failed `btLookup` means no entry has the key. -/
theorem btLookup_eq_none {α : Type} {l : List (Nat × α)} {k : Nat}
    (h : btLookup l k = none) (v : α) : (k, v) ∉ l := by
  unfold btLookup at h
  rw [Option.map_eq_none', List.find?_eq_none] at h
  intro hmem
  exact absurd (by simp : (((k, v) : Nat × α).1 == k) = true) (h _ hmem)

/-- In a key-sorted list, a key determines its value. -/
theorem key_unique {α : Type} {l : List (Nat × α)}
    (hs : l.Pairwise (fun a b => a.1 < b.1)) {k : Nat} {v w : α}
    (hv : (k, v) ∈ l) (hw : (k, w) ∈ l) : v = w := by
  induction l with
  | nil => cases hv
  | cons a t ih =>
    rw [List.pairwise_cons] at hs
    rcases List.mem_cons.mp hv with hva | hvt <;> rcases List.mem_cons.mp hw with hwa | hwt
    · have : (k, v) = (k, w) := hva.trans hwa.symm
      exact (Prod.mk.injEq k v k w ▸ this).2
    · exfalso
      have := hs.1 _ hwt
      rw [← hva] at this
      omega
    · exfalso
      have := hs.1 _ hvt
      rw [← hwa] at this
      omega
    · exact ih hs.2 hvt hwt

/-- The last element of a list is a member. -/
theorem getLast?_mem' {α : Type} {l : List α} {a : α} (h : l.getLast? = some a) :
    a ∈ l := by
  induction l with
  | nil => cases h
  | cons b t ih =>
    cases t with
    | nil =>
      simp only [List.getLast?_singleton, Option.some.injEq] at h
      simp [h]
    | cons c t' =>
      rw [List.getLast?_cons_cons] at h
      exact List.mem_cons_of_mem b (ih h)

/-- A nonempty list has a last element. -/
theorem getLast?_cons_ne_none {α : Type} (b : α) (t : List α) :
    (b :: t).getLast? ≠ none := by
  induction t generalizing b with
  | nil => simp [List.getLast?_singleton]
  | cons c t' ih => rw [List.getLast?_cons_cons]; exact ih c

/-- In a key-sorted list, the last element has the greatest key. -/
theorem mem_key_le_getLast {α : Type} {l : List (Nat × α)}
    (hs : l.Pairwise (fun a b => a.1 < b.1)) {x y : Nat × α}
    (hx : x ∈ l) (hy : l.getLast? = some y) : x.1 ≤ y.1 := by
  induction l with
  | nil => cases hx
  | cons a t ih =>
    rw [List.pairwise_cons] at hs
    cases t with
    | nil =>
      simp only [List.getLast?_singleton, Option.some.injEq] at hy
      rcases List.mem_cons.mp hx with h | h
      · rw [h, hy]
      · cases h
    | cons c t' =>
      rw [List.getLast?_cons_cons] at hy
      rcases List.mem_cons.mp hx with h | h
      · have hymem := getLast?_mem' hy
        have := hs.1 y hymem
        rw [h]
        omega
      · exact ih hs.2 h hy

/-- What a successful `rangeBefore` returns: a stored entry, strictly below
the bound, with the greatest such key. -/
theorem rangeBefore_eq_some {α : Type} {l : List (Nat × α)} {k : Nat} {co : Nat × α}
    (hs : l.Pairwise (fun a b => a.1 < b.1))
    (h : rangeBefore l k = some co) :
    co ∈ l ∧ co.1 < k ∧ ∀ p ∈ l, p.1 < k → p.1 ≤ co.1 := by
  unfold rangeBefore at h
  have hmem := getLast?_mem' h
  have hco := List.mem_filter.mp hmem
  refine ⟨hco.1, by simpa using hco.2, ?_⟩
  intro p hp hpk
  have hpf : p ∈ l.filter (fun p => decide (p.1 < k)) :=
    List.mem_filter.mpr ⟨hp, by simpa⟩
  exact mem_key_le_getLast (hs.sublist (List.filter_sublist l)) hpf h

/-- A failed `rangeBefore` means no stored key lies strictly below the bound. -/
theorem rangeBefore_eq_none {α : Type} {l : List (Nat × α)} {k : Nat}
    (h : rangeBefore l k = none) : ∀ p ∈ l, ¬ p.1 < k := by
  unfold rangeBefore at h
  intro p hp hpk
  cases hf : l.filter (fun p => decide (p.1 < k)) with
  | nil =>
    have : p ∈ ([] : List (Nat × α)) := hf ▸ List.mem_filter.mpr ⟨hp, by simpa⟩
    cases this
  | cons a t => rw [hf] at h; exact getLast?_cons_ne_none a t h

/-! ## Claim theorems -/

/-- C1: the codec round-trip `write_vlq` after `add_vlq_mappings` is claimed
to be the identity on every in-range `mappings` string, in particular when a
later segment's absolute original line is smaller than the previous one's, so
that a negative signed delta must be re-emitted.  The code violates this: the
string `AACA,CADA` (second segment's original line is one below the first's)
decodes successfully, but `write_vlq` computes the delta by wrapping `u32`
subtraction, re-emitting `0 - 1` as `4294967295` — the output is
`AACA,CA+/////HA`, not the input. -/
theorem c1_negative_delta_breaks_roundtrip :
    (SourceMap.add_vql_mappings SourceMap.new "AACA,CADA".data ["a.js"] []).2 = none ∧
    (SourceMap.write_vlq
        (SourceMap.add_vql_mappings SourceMap.new "AACA,CADA".data ["a.js"] []).1).2 =
      "AACA,CA+/////HA" ∧
    "AACA,CA+/////HA" ≠ "AACA,CADA" :=
  ⟨rfl, rfl, by decide⟩

/-- C2 counterexample: on the map with mapping-line keys 0, 1, 2 and 5,
`offset_lines(3, -1)` yields keys 0, 1 and 4 — not the claimed 0, 1, 2 and 4:
the `MappingLine` at key 2 is discarded by the destination-window
`split_off`, so line 2's data is lost. -/
theorem c2_line_two_dropped :
    SourceMap.offset_lines exMap0125 3 (-1) =
      .ok ⟨[], [], [], [(0, mline 0), (1, mline 1), (4, mline 5)]⟩ ∧
    [0, 1, 4] ≠ [0, 1, 2, 4] :=
  ⟨rfl, by decide⟩

/-- C2 amended: on the map with lines 0, 1, 2 and 5, `offset_lines(3, -1)`
succeeds with lines 0, 1 and 4 — lines 0 and 1 unchanged, the former line 5
at key 4, and line 2 (the destination window `[2, 3)`) discarded; and
`offset_lines(5, -4)` succeeds with lines 0 and 1 — the retained lines 1 and
2 are removed by the destination `split_off` and the former line 5's content
lands at key 1. -/
theorem c2_offset_lines_actual :
    SourceMap.offset_lines exMap0125 3 (-1) =
      .ok ⟨[], [], [], [(0, mline 0), (1, mline 1), (4, mline 5)]⟩ ∧
    SourceMap.offset_lines exMap0125 5 (-4) =
      .ok ⟨[], [], [], [(0, mline 0), (1, mline 5)]⟩ :=
  ⟨rfl, rfl⟩

/-- C3: the claim says `offset_lines` fails with `UnexpectedNegativeNumber`
whenever an existing key would be shifted below zero or above `u32::MAX`.
The code only tests `from_line + delta` against the upper bound and the `i64`
overflow flag — it never tests for a negative result.  On the map with the
single line 5, `offset_lines(3, -10)` (so `5 - 10 < 0`) returns `Ok` with the
key wrapped to `4294967291`, and `offset_lines(0, 4294967295)` (so
`5 + 4294967295` overflows `u32`) returns `Ok` with the key wrapped to 4. -/
theorem c3_out_of_range_shift_wraps :
    SourceMap.offset_lines exMap5 3 (-10) =
      .ok ⟨[], [], [], [(4294967291, mline 5)]⟩ ∧
    SourceMap.offset_lines exMap5 0 4294967295 =
      .ok ⟨[], [], [], [(4, mline 5)]⟩ :=
  ⟨rfl, rfl⟩

/-- C4: the claim says `set_source_content(i, text)` fails with
`SourceOutOfRange` whenever `i ≥ len(sources)`, in particular for every `i`
on a map with no sources.  The code's bounds check `i > len - 1` underflows
when `len = 0` (wrapping to `u32::MAX`), so on an empty map the call succeeds
for index 0 and records content for a source that does not exist.  On a
one-source map the check behaves as claimed. -/
theorem c4_empty_sources_bounds_check_underflows :
    SourceMap.set_source_content SourceMap.new 0 "abc" =
      .ok ⟨[], [(0, "abc")], [], []⟩ ∧
    SourceMap.set_source_content ⟨["a.js"], [], [], []⟩ 1 "x" =
      .error ⟨.sourceOutOfRange, none⟩ :=
  ⟨rfl, rfl⟩

/-- C5: `find_closest_mapping(line, col)` returns exactly the mapping on the
requested generated line whose generated column is maximal among stored
columns strictly below `col` (unique by column, with its stored original),
and returns none precisely when that line stores no column strictly below
`col` — in particular there is no fallback to other lines and a column equal
to `col` is never returned. -/
theorem c5_find_closest_characterization (m : SourceMap) (line col : Nat)
    (hk : m.mapping_lines.Pairwise (fun a b => a.1 < b.1))
    (hc : ∀ p ∈ m.mapping_lines, p.2.mappings.Pairwise (fun a b => a.1 < b.1)) :
    (∀ mp, m.find_closest_mapping line col = some mp →
        mp.generated_line = line ∧ mp.generated_column < col ∧
        m.hasMapping line mp.generated_column mp.original ∧
        (∀ c o, m.hasMapping line c o → c < col → c ≤ mp.generated_column) ∧
        (∀ c o, m.hasMapping line c o → c = mp.generated_column → o = mp.original)) ∧
    (m.find_closest_mapping line col = none →
        ∀ c o, m.hasMapping line c o → ¬ c < col) := by
  constructor
  · intro mp hmp
    unfold SourceMap.find_closest_mapping at hmp
    cases hL : btLookup m.mapping_lines line with
    | none => rw [hL] at hmp; exact absurd hmp (by simp)
    | some ml =>
      simp only [hL] at hmp
      cases hR : rangeBefore ml.mappings col with
      | none => simp only [hR] at hmp; exact absurd hmp (by simp)
      | some co =>
        simp only [hR] at hmp
        have hmpe : mp = ⟨line, co.1, co.2⟩ := (Option.some.inj hmp).symm
        subst hmpe
        have hml : (line, ml) ∈ m.mapping_lines := btLookup_eq_some hL
        have hmls : ml.mappings.Pairwise (fun a b => a.1 < b.1) := hc _ hml
        obtain ⟨hcoMem, hcoLt, hcoMax⟩ := rangeBefore_eq_some hmls hR
        refine ⟨rfl, hcoLt, ⟨ml, hml, ?_⟩, ?_, ?_⟩
        · simpa using hcoMem
        · intro c o hco hlt
          obtain ⟨ml', hml', hmem'⟩ := hco
          have : ml' = ml := key_unique hk hml' hml
          subst this
          exact hcoMax (c, o) hmem' hlt
        · intro c o hco hceq
          obtain ⟨ml', hml', hmem'⟩ := hco
          have : ml' = ml := key_unique hk hml' hml
          subst this
          subst hceq
          exact key_unique hmls hmem' (by simpa using hcoMem)
  · intro hnone c o hco hlt
    unfold SourceMap.find_closest_mapping at hnone
    obtain ⟨ml', hml', hmem'⟩ := hco
    cases hL : btLookup m.mapping_lines line with
    | none => exact btLookup_eq_none hL ml' hml'
    | some ml =>
      simp only [hL] at hnone
      have hml : (line, ml) ∈ m.mapping_lines := btLookup_eq_some hL
      have : ml' = ml := key_unique hk hml' hml
      subst this
      cases hR : rangeBefore ml'.mappings col with
      | none => exact rangeBefore_eq_none hR (c, o) hmem' hlt
      | some co => simp only [hR] at hnone; exact absurd hnone (by simp)

/-- C5 witness: on the S1 map the query at generated position (12, 10)
returns the mapping at column 7 with its stored original location, which the
theorem certifies is stored, strictly below column 10, and column-maximal. -/
theorem c5_find_closest_characterization_witness :
    (7 : Nat) < 10 ∧ SourceMap.hasMapping s1map 12 7 (some ⟨0, 0, 5, some 0⟩) := by
  have h := (c5_find_closest_characterization s1map 12 10 (by decide) (by decide)).1
    ⟨12, 7, some ⟨0, 0, 5, some 0⟩⟩ (by decide)
  exact ⟨h.2.1, h.2.2.1⟩

/-- C6: on a fresh map with sources `a.js`, `b.js` and name `test`, adding the
mappings (12, 7, src 0, line 0, col 5, name 0), (25, 12, no original) and
(15, 9, src 1, line 0, col 5, name 0) and serializing yields exactly the
canonical `mappings` string. -/
theorem c6_canonical_encode :
    (SourceMap.write_vlq s1map).2 = ";;;;;;;;;;;;OAAKA;;;SCAAA;;;;;;;;;;Y" :=
  rfl

/-- C7: `add_vlq_mappings` is not atomic.  On a fresh map, the input
`A,CGAA` with sources `a.js`, `b.js` and name `test` fails with
`SourceOutOfRange` (its second segment names wire source index 3), yet the
mapping stored from the first segment and the merged sources and names
tables remain in the map returned alongside the error. -/
theorem c7_add_vlq_mappings_not_atomic :
    SourceMap.add_vql_mappings SourceMap.new "A,CGAA".data ["a.js", "b.js"] ["test"] =
      (⟨["a.js", "b.js"], [], ["test"], [(0, ⟨0, [(0, none)]⟩)]⟩,
        some ⟨.sourceOutOfRange, none⟩) :=
  rfl

/-- C8: adding the same source twice in a row returns the same index both
times and does not grow the sources table on the second call; likewise for
names. -/
theorem c8_add_source_add_name_dedup (m : SourceMap) (x : String) :
    ((SourceMap.add_source (SourceMap.add_source m x).2 x).1 =
        (SourceMap.add_source m x).1 ∧
      (SourceMap.add_source (SourceMap.add_source m x).2 x).2.sources.length =
        (SourceMap.add_source m x).2.sources.length) ∧
    ((SourceMap.add_name (SourceMap.add_name m x).2 x).1 =
        (SourceMap.add_name m x).1 ∧
      (SourceMap.add_name (SourceMap.add_name m x).2 x).2.names.length =
        (SourceMap.add_name m x).2.names.length) := by
  constructor
  · unfold SourceMap.add_source
    cases h : listPosition (fun s => x == s) m.sources with
    | some i => simp [h]
    | none =>
      have hpos := listPosition_append_none h (beq_self_eq_true x)
      simp [h, hpos]
  · unfold SourceMap.add_name
    cases h : listPosition (fun s => x == s) m.names with
    | some i => simp [h]
    | none =>
      have hpos := listPosition_append_none h (beq_self_eq_true x)
      simp [h, hpos]

/-- C9: a call to `write_vlq` leaves the map observably unchanged — sources,
sources_content, names and every mapping line are equal before and after,
even though the method takes a mutable reference. -/
theorem c9_write_vlq_leaves_map_unchanged (m : SourceMap) :
    (SourceMap.write_vlq m).1.sources = m.sources ∧
    (SourceMap.write_vlq m).1.sources_content = m.sources_content ∧
    (SourceMap.write_vlq m).1.names = m.names ∧
    (SourceMap.write_vlq m).1.mapping_lines = m.mapping_lines :=
  ⟨rfl, rfl, rfl, rfl⟩

/-- C10: `offset_lines(L, 0)` succeeds and is a no-op: the detached suffix is
reinserted at identical keys and the map is unchanged. -/
theorem c10_offset_lines_zero_noop (m : SourceMap) (L : Nat)
    (hL : L ≤ u32MaxN)
    (hs : m.mapping_lines.Pairwise (fun a b => a.1 < b.1))
    (hb : ∀ p ∈ m.mapping_lines, p.1 ≤ u32MaxN) :
    SourceMap.offset_lines m L 0 = .ok m := by
  have h0 : ¬((L : Int) + 0 > i64MaxI ∨ (L : Int) + 0 < i64MinI ∨
      (L : Int) + 0 > (u32MaxN : Int)) := by
    simp only [i64MaxI, i64MinI, u32MaxN] at hL ⊢
    push_cast
    omega
  have hL' : L < 4294967296 := by simp only [u32MaxN] at hL; omega
  have hustart : i64AsU32 ((L : Int) + 0) = L := by
    show (((L : Int) + 0).emod 4294967296).toNat = L
    have hm : ((L : Int) + 0).emod 4294967296 = ((L : Int) + 0) % 4294967296 := rfl
    rw [hm]
    omega
  have hmap : (m.mapping_lines.filter (fun p => decide (L ≤ p.1))).map
      (fun p => (if (0 : Int) < 0 then u32wsub p.1 ((0 : Int).natAbs % 4294967296)
        else u32add p.1 ((0 : Int).natAbs % 4294967296), p.2)) =
      m.mapping_lines.filter (fun p => decide (L ≤ p.1)) := by
    apply map_id_of_mem
    intro p hp
    have hple : p.1 ≤ u32MaxN := hb p (List.mem_of_mem_filter hp)
    simp only [u32MaxN] at hple
    rw [if_neg (by norm_num)]
    simp only [u32add, Int.natAbs_zero, Nat.zero_mod, Nat.add_zero]
    rw [Nat.mod_eq_of_lt (by omega)]
  simp only [SourceMap.offset_lines]
  rw [if_neg h0, hustart, filter_self_filter, hmap,
    foldl_btInsert_append _ _ (by rw [filter_split_sorted L hs]; exact hs),
    filter_split_sorted L hs]

/-- C10 witness: on the concrete map with lines 0, 1, 2 and 5,
`offset_lines(3, 0)` returns the map unchanged. -/
theorem c10_offset_lines_zero_noop_witness :
    SourceMap.offset_lines exMap0125 3 0 = .ok exMap0125 :=
  c10_offset_lines_zero_noop exMap0125 3 (by decide) (by decide) (by decide)
